import Mathlib

/-!
Verification development for the reactive tag/parameter subsystem of the
STLayinAlive repository.  The definitions below are a shallow embedding of
`src/tag-provider/tag-provider.js`, `src/tag-provider/tag-group.js` and
`src/core/model-base.js`.

Modelling conventions:
* JavaScript `Map` objects are modelled as insertion-ordered association
  lists (`mget` / `mset` reproduce `Map.get` / `Map.set`: `set` updates an
  existing key in place, otherwise appends).
* Tag values are modelled by `JSVal` (the `null` default and numbers, the
  only value kinds the verified claims exercise); the JavaScript comparisons
  `value < min` / `value > max` coerce `null` to `0`, reproduced by
  `jsNumLt` / `jsNumGt`.
* `Date.now()` is modelled by a per-registry counter (`clock`) that is read
  and bumped at each point the source calls `Date.now()`; it is strictly
  monotone, which refines the real clock's monotonicity.
* Subscriber callbacks are state transformers over an external state `σ`
  together with a `Bool` recording whether the callback threw; the
  notification loop runs each callback inside `try/catch` and ignores the
  flag, exactly as the source logs and swallows callback errors.
* Thrown JavaScript errors of the core API are modelled by `Except SetError`;
  a `setValue` / `setParam` that throws leaves the caller with the states it
  passed in.
-/

/-- JavaScript values reaching the tag layer in the verified claims:
`null` (the registration default) and numbers. -/
inductive JSVal where
  | null : JSVal
  | num : Int → JSVal
deriving DecidableEq, Repr

/-- String interpolation `${v}` of a tag value, as used in alarm messages. -/
def jsValStr : JSVal → String
  | JSVal.null => "null"
  | JSVal.num n => toString n

/-- The JavaScript comparison `v < m` (with `null` coercing to `0`). -/
def jsNumLt : JSVal → Int → Bool
  | JSVal.null, m => decide (0 < m)
  | JSVal.num n, m => decide (n < m)

/-- The JavaScript comparison `v > m` (with `null` coercing to `0`). -/
def jsNumGt : JSVal → Int → Bool
  | JSVal.null, m => decide (m < 0)
  | JSVal.num n, m => decide (m < n)

/-- One tag record, as built by `registerTag`. -/
structure Tag where
  name : String
  value : JSVal
  dataType : String
  unit : String
  min : Option Int
  max : Option Int
  quality : String
  timestamp : Nat
  description : String
  writeable : Bool
deriving DecidableEq, Repr

/-- The recognized fields of the `config` argument of `registerTag`
(`none` models an absent or `null` field; the trailing `...config` spread in
the source re-applies exactly these recognized fields). -/
structure TagConfig where
  defaultValue : Option JSVal := none
  dataType : Option String := none
  unit : Option String := none
  min : Option Int := none
  max : Option Int := none
  description : Option String := none
  writeable : Option Bool := none
deriving DecidableEq, Repr

/-- One history record `{value, timestamp, quality}`. -/
structure HistoryEntry where
  value : JSVal
  timestamp : Nat
  quality : String
deriving DecidableEq, Repr

/-- One alarm record pushed by `setAlarm`. -/
structure Alarm where
  severity : String
  message : String
  timestamp : Nat
  acknowledged : Bool
deriving DecidableEq, Repr

/-- The `options` argument of `setValue`. -/
structure SetOptions where
  quality : Option String := none
  force : Bool := false
deriving DecidableEq, Repr

/-- The structured failures thrown by the tag layer: the registry's
read-only rejection and the group's unknown-local-name rejection. -/
inductive SetError where
  | readOnly : String → SetError
  | tagNotInGroup : String → String → SetError
deriving DecidableEq, Repr

/-- A subscriber callback `(newValue, oldValue, tag)` acting on an external
state `σ`; the `Bool` records whether the callback threw. -/
def Cb (σ : Type) : Type := JSVal → JSVal → Option Tag → σ → σ × Bool

/-- `Map.get`: first binding of the key, if any. -/
def mget {κ α : Type} [DecidableEq κ] : List (κ × α) → κ → Option α
  | [], _ => none
  | e :: rest, key => if e.1 = key then some e.2 else mget rest key

/-- `Map.set`: update an existing key in place, otherwise append. -/
def mset {κ α : Type} [DecidableEq κ] : List (κ × α) → κ → α → List (κ × α)
  | [], key, val => [(key, val)]
  | e :: rest, key, val => if e.1 = key then (e.1, val) :: rest else e :: mset rest key val

/-- The `TagProvider` registry state: the four `Map` fields of the source
constructor plus the `Date.now()` clock model and the subscription-id
counter. -/
structure TagProvider (σ : Type) where
  tags : List (String × Tag)
  subscribers : List (String × List (Nat × Cb σ))
  history : List (String × List HistoryEntry)
  alarms : List (String × List Alarm)
  clock : Nat
  subCounter : Nat

variable {σ : Type}

/-- A freshly constructed `TagProvider`. -/
def emptyProvider : TagProvider σ :=
  { tags := [], subscribers := [], history := [], alarms := [], clock := 0, subCounter := 0 }

/-- `registerTag(tagName, config)`: builds the tag record from the config
defaults, stores it, and resets the tag's history log to `[]`. -/
def TagProvider.registerTag (p : TagProvider σ) (tagName : String) (config : TagConfig) :
    TagProvider σ × Tag :=
  let tag : Tag :=
    { name := tagName
      value := config.defaultValue.getD JSVal.null
      dataType := config.dataType.getD "number"
      unit := config.unit.getD ""
      min := config.min
      max := config.max
      quality := "GOOD"
      timestamp := p.clock
      description := config.description.getD ""
      writeable := config.writeable.getD true }
  ({ p with
      clock := p.clock + 1
      tags := mset p.tags tagName tag
      history := mset p.history tagName [] }, tag)

/-- `setAlarm(tagName, severity, message)`: append an unacknowledged alarm
record for the tag. -/
def TagProvider.setAlarm (p : TagProvider σ) (tagName severity message : String) :
    TagProvider σ :=
  { p with
      clock := p.clock + 1
      alarms := mset p.alarms tagName
        (((mget p.alarms tagName).getD []) ++
          [{ severity := severity, message := message, timestamp := p.clock,
             acknowledged := false }]) }

/-- The notification loop of `notifySubscribers`: each callback for the tag
name runs on `(value, oldValue, tags.get(tagName))` inside `try/catch`; a
thrown error is logged and ignored, so the fold continues over every
subscriber in insertion order. -/
def TagProvider.notifySubscribers (p : TagProvider σ) (tagName : String)
    (value oldValue : JSVal) (s : σ) : σ :=
  match mget p.subscribers tagName with
  | none => s
  | some subs =>
    let tag := mget p.tags tagName
    subs.foldl (fun acc cb => (cb.2 value oldValue tag acc).1) s

/-- The two bounds-validation blocks of `setValue`: the `min` check emits a
LOW alarm and clamps, then the `max` check runs on the result and emits a
HIGH alarm and clamps.  Returns the provider (with any alarms appended) and
the possibly clamped value. -/
def TagProvider.validateBounds (p : TagProvider σ) (tag : Tag) (value : JSVal) :
    TagProvider σ × JSVal :=
  let step1 : TagProvider σ × JSVal :=
    match tag.min with
    | some m =>
      if jsNumLt value m then
        (p.setAlarm tag.name "LOW"
          ("Value " ++ jsValStr value ++ " below minimum " ++ toString m), JSVal.num m)
      else (p, value)
    | none => (p, value)
  match tag.max with
  | some mx =>
    if jsNumGt step1.2 mx then
      (step1.1.setAlarm tag.name "HIGH"
        ("Value " ++ jsValStr step1.2 ++ " above maximum " ++ toString mx), JSVal.num mx)
    else step1
  | none => step1

/-- The body of `setValue` once the tag record is at hand (after the
auto-registration and read-only checks): bounds validation with alarms and
clamping, commit, history append with the 1000-entry cap, and subscriber
notification. -/
def TagProvider.writeTag (p : TagProvider σ) (tag : Tag) (value : JSVal)
    (options : SetOptions) (s : σ) : TagProvider σ × σ × Tag :=
  let pv := p.validateBounds tag value
  let p2 := pv.1
  let v2 := pv.2
  let oldValue := tag.value
  let ts := p2.clock
  let newTag : Tag := { tag with value := v2, timestamp := ts, quality := options.quality.getD "GOOD" }
  let p3 := { p2 with clock := p2.clock + 1, tags := mset p2.tags tag.name newTag }
  let h1 := ((mget p3.history tag.name).getD []) ++
    [{ value := v2, timestamp := ts, quality := newTag.quality }]
  let h2 := if 1000 < h1.length then h1.drop 1 else h1
  let p4 := { p3 with history := mset p3.history tag.name h2 }
  let s2 := p4.notifySubscribers tag.name v2 oldValue s
  (p4, s2, newTag)

/-- `setValue(tagName, value, options)`.  An unknown name is auto-registered
with `defaultValue = value` and the source then re-enters `setValue`; that
single re-entrant call necessarily takes the known-tag write path (the fresh
tag is writeable), which is unfolded here. -/
def TagProvider.setValue (p : TagProvider σ) (tagName : String) (value : JSVal)
    (options : SetOptions) (s : σ) : Except SetError (TagProvider σ × σ × Tag) :=
  match mget p.tags tagName with
  | some tag =>
    if tag.writeable = false ∧ options.force = false then
      Except.error (SetError.readOnly tagName)
    else
      Except.ok (p.writeTag tag value options s)
  | none =>
    let r := p.registerTag tagName { defaultValue := some value }
    Except.ok (r.1.writeTag r.2 value options s)

/-- `getValue(tagName)`: `none` models the `undefined` returned for an
unknown tag (distinct from `some JSVal.null`). -/
def TagProvider.getValue (p : TagProvider σ) (tagName : String) : Option JSVal :=
  (mget p.tags tagName).map Tag.value

/-- `getTag(tagName)`. -/
def TagProvider.getTag (p : TagProvider σ) (tagName : String) : Option Tag :=
  mget p.tags tagName

/-- `subscribe(tagNames, callback)`: one fresh subscription identity added
under every listed tag name; returns the identity (the source returns a
closure over it). -/
def TagProvider.subscribe (p : TagProvider σ) (tagNames : List String) (callback : Cb σ) :
    TagProvider σ × Nat :=
  let sid := p.subCounter
  let p1 := { p with subCounter := p.subCounter + 1 }
  (tagNames.foldl
    (fun acc tagName =>
      { acc with subscribers :=
          (mset acc.subscribers tagName
            (mset ((mget acc.subscribers tagName).getD []) sid callback)) }) p1, sid)

/-- The unsubscribe closure returned by `subscribe`: delete the subscription
identity from every tag name it was registered under. -/
def TagProvider.unsubscribe (p : TagProvider σ) (tagNames : List String) (sid : Nat) :
    TagProvider σ :=
  tagNames.foldl
    (fun acc tagName =>
      match mget acc.subscribers tagName with
      | none => acc
      | some subs =>
        { acc with subscribers :=
            (mset acc.subscribers tagName (subs.filter (fun e => e.1 != sid))) }) p

/-- `getHistory(tagName, limit)`: `history.slice(-limit)`, the last `limit`
entries (JavaScript `slice(-0)` is `slice(0)`, the whole array). -/
def TagProvider.getHistory (p : TagProvider σ) (tagName : String) (limit : Nat := 100) :
    List HistoryEntry :=
  let h := (mget p.history tagName).getD []
  if limit = 0 then h else h.drop (h.length - limit)

/-- `clear()`: empty all four maps. -/
def TagProvider.clear (p : TagProvider σ) : TagProvider σ :=
  { p with tags := [], subscribers := [], history := [], alarms := [] }

/-- Token of the regular expression `'^' + pattern.replace(/\*/g, '.*') + '$'`
that `getTags` builds: since the pattern text is not regex-escaped, a `'.'`
in the pattern stays the any-character metacharacter (`dot`), `'*'` becomes
`.*` (`star`), and every other pattern character the verified claims use is
a literal. -/
inductive Tok where
  | lit : Char → Tok
  | dot : Tok
  | star : Tok
deriving DecidableEq, Repr

/-- `suffixMatch f cs` holds when some suffix of `cs` satisfies `f`:
the semantics of a leading `.*` in front of a regex matching `f`. -/
def suffixMatch (f : List Char → Bool) : List Char → Bool
  | [] => f []
  | c :: cs => f (c :: cs) || suffixMatch f cs

/-- Anchored matching of the token list against a character list: the
`RegExp.test` of the anchored regex `getTags` constructs. -/
def tmatch : List Tok → List Char → Bool
  | [], cs => cs.isEmpty
  | Tok.lit c :: ts, cs =>
    match cs with
    | [] => false
    | x :: xs => x = c && tmatch ts xs
  | Tok.dot :: ts, cs =>
    match cs with
    | [] => false
    | _ :: xs => tmatch ts xs
  | Tok.star :: ts, cs => suffixMatch (tmatch ts) cs

/-- The token list of `new RegExp('^' + pattern.replace(/\*/g, '.*') + '$')`:
only `'*'` is rewritten, so `'.'` keeps its regex meaning.  (Faithful for
patterns made of `'*'`, `'.'` and characters with no regex meaning, which
covers every pattern in the claims.) -/
def translateCode (pattern : String) : List Tok :=
  pattern.toList.map (fun c => if c = '*' then Tok.star else if c = '.' then Tok.dot else Tok.lit c)

/-- Modelled from the spec: the anchored regex the specification prescribes,
`'^'` + regex-escaped pattern with each `'*'` replaced by `.*` + `'$'` —
escaping makes every non-`'*'` character (in particular `'.'`) a literal.
This definition exists only to compare the spec's matching semantics with
the source's `translateCode`. -/
def translateSpec (pattern : String) : List Tok :=
  pattern.toList.map (fun c => if c = '*' then Tok.star else Tok.lit c)

/-- `getTags(pattern)`: `'*'` returns every tag; otherwise filter the tags
(in registration order) by the anchored unescaped regex. -/
def TagProvider.getTags (p : TagProvider σ) (pattern : String := "*") : List Tag :=
  if pattern = "*" then p.tags.map Prod.snd
  else (p.tags.map Prod.snd).filter (fun t => tmatch (translateCode pattern) t.name.toList)

/-- One entry of the object produced by `exportValues`. -/
structure ExportEntry where
  value : JSVal
  quality : String
  timestamp : Nat
deriving DecidableEq, Repr

/-- One value of the object consumed by `importValues`: either a record
containing a `value` field (with an optional `quality`) or a bare scalar. -/
inductive ImportDatum where
  | obj : JSVal → Option String → ImportDatum
  | scalar : JSVal → ImportDatum
deriving DecidableEq, Repr

/-- `exportValues(tagNames)`: defaults to all registered names; skips names
with no tag record. -/
def TagProvider.exportValues (p : TagProvider σ) (tagNames : Option (List String) := none) :
    List (String × ExportEntry) :=
  let names := tagNames.getD (p.tags.map Prod.fst)
  names.filterMap (fun n =>
    (mget p.tags n).map (fun t =>
      (n, { value := t.value, quality := t.quality, timestamp := t.timestamp })))

/-- One step of `importValues`: a record entry re-enters `setValue` with its
`value` and `quality` and `force: true`; a scalar entry re-enters `setValue`
with `force: true` only.  With `force` set the read-only check (the only
throwing path of `setValue`) cannot fire, so the error branch below is dead
code (`setValue_force_ok`). -/
def TagProvider.importOne (p : TagProvider σ) (s : σ) (tagName : String) (d : ImportDatum) :
    TagProvider σ × σ :=
  match d with
  | ImportDatum.obj v q =>
    match p.setValue tagName v { quality := q, force := true } s with
    | Except.ok r => (r.1, r.2.1)
    | Except.error _ => (p, s)
  | ImportDatum.scalar v =>
    match p.setValue tagName v { force := true } s with
    | Except.ok r => (r.1, r.2.1)
    | Except.error _ => (p, s)

/-- `importValues(data)`: apply `importOne` over the entries in order. -/
def TagProvider.importValues (p : TagProvider σ) (data : List (String × ImportDatum)) (s : σ) :
    TagProvider σ × σ :=
  data.foldl (fun acc e => TagProvider.importOne acc.1 acc.2 e.1 e.2) (p, s)

/-- Reading the exported object back as import input: each exported entry is
an object with a `value` field, so `importValues` takes its record branch. -/
def TagProvider.exportForImport (p : TagProvider σ) : List (String × ImportDatum) :=
  (p.exportValues none).map (fun e => (e.1, ImportDatum.obj e.2.value (some e.2.quality)))

/-- `importValues(exportValues())` with no writes in between. -/
def TagProvider.roundTrip (p : TagProvider σ) (s : σ) : TagProvider σ × σ :=
  p.importValues p.exportForImport s

/-- Test harness: run one `setValue` and keep the resulting states (the
caller's states are unchanged when the call throws). -/
def runSet (p : TagProvider σ) (tagName : String) (value : JSVal) (s : σ) :
    TagProvider σ × σ :=
  match p.setValue tagName value {} s with
  | Except.ok r => (r.1, r.2.1)
  | Except.error _ => (p, s)

/-- Test harness: a sequence of `setValue` calls on one tag. -/
def writeAll (p : TagProvider σ) (tagName : String) (vs : List JSVal) (s : σ) :
    TagProvider σ × σ :=
  vs.foldl (fun acc v => runSet acc.1 tagName v acc.2) (p, s)

/-- The clamping `setValue` applies, as a function of the bounds: the `min`
check runs first, then the `max` check on its result. -/
def clampOf (mn mx : Option Int) (v : JSVal) : JSVal :=
  let v1 := match mn with
    | some m => if jsNumLt v m then JSVal.num m else v
    | none => v
  match mx with
  | some m => if jsNumGt v1 m then JSVal.num m else v1
  | none => v1

/-- Integer clamping for a numeric write with both bounds present. -/
def clampI (mn mx n : Int) : Int :=
  if n < mn then mn else if mx < n then mx else n

/-- The `TagGroup` state: group name and the `Map` from local name to fully
qualified name.  The backing `TagProvider` is passed explicitly where the
source holds a reference. -/
structure TagGroup where
  name : String
  tags : List (String × String)

/-- `TagGroup.addTag(localName, config)`: register `"{group}.{local}"` in the
registry and record the local mapping. -/
def TagGroup.addTag (g : TagGroup) (p : TagProvider σ) (localName : String)
    (config : TagConfig) : TagGroup × TagProvider σ × Tag :=
  let fullName := g.name ++ "." ++ localName
  let r := TagProvider.registerTag p fullName config
  ({ g with tags := mset g.tags localName fullName }, r.1, r.2)

/-- `TagGroup.setValue(localName, value, options)`: throws `TagNotInGroup`
for a local name never added via `addTag`, else forwards to the registry. -/
def TagGroup.setValue (g : TagGroup) (p : TagProvider σ) (localName : String)
    (value : JSVal) (options : SetOptions) (s : σ) :
    Except SetError (TagProvider σ × σ × Tag) :=
  match mget g.tags localName with
  | none => Except.error (SetError.tagNotInGroup localName g.name)
  | some fullName => TagProvider.setValue p fullName value options s

/-- `TagGroup.getValue(localName)`: an unknown local name returns `undefined`
(no error), else forwards to the registry. -/
def TagGroup.getValue (g : TagGroup) (p : TagProvider σ) (localName : String) :
    Option JSVal :=
  match mget g.tags localName with
  | none => none
  | some fullName => TagProvider.getValue p fullName

/-- `TagGroup.subscribe(localName, callback)`: throws `TagNotInGroup` for a
local name never added via `addTag`, else forwards to the registry. -/
def TagGroup.subscribe (g : TagGroup) (p : TagProvider σ) (localName : String)
    (callback : Cb σ) : Except SetError (TagProvider σ × Nat) :=
  match mget g.tags localName with
  | none => Except.error (SetError.tagNotInGroup localName g.name)
  | some fullName => Except.ok (TagProvider.subscribe p [fullName] callback)

/-- The `ModelBase` state relevant to the claims: the local parameter bag
and a record of the `onParameterChange` invocations (the base implementation
of the hook only refreshes metadata timestamps, which are not modelled). -/
structure ModelBase where
  params : List (String × JSVal)
  pcChanges : List (String × JSVal)

/-- JavaScript `typeof` on the modelled values (`typeof null` is
`"object"`). -/
def jsTypeOf : JSVal → String
  | JSVal.null => "object"
  | JSVal.num _ => "number"

/-- The subscription callback installed by `bindTagsToParams` for one
parameter key: re-assign `params[key]` to the notified value and invoke
`onParameterChange(key, newValue)` (recorded in `pcChanges`).  It never
throws. -/
def bindingCb (key : String) : Cb ModelBase := fun newValue _ _ m =>
  ({ params := mset m.params key newValue, pcChanges := m.pcChanges ++ [(key, newValue)] }, false)

/-- `ModelBase.setParam(key, value)`: assign the raw value to `params[key]`
first, then push it through the tag group; a throwing push propagates to the
caller with the raw assignment already applied and the registry untouched. -/
def ModelBase.setParam (g : TagGroup) (p : TagProvider ModelBase) (m : ModelBase)
    (key : String) (value : JSVal) :
    ModelBase × TagProvider ModelBase × Option SetError :=
  let m1 := { m with params := mset m.params key value }
  match TagGroup.setValue g p key value {} m1 with
  | Except.ok r => (r.2.1, r.1, none)
  | Except.error e => (m1, p, some e)

/-- `registerTags()` of the constructor: add one tag per declared default
parameter, with the config the source builds. -/
def ModelBase.registerTags (modelName : String) (defaults : List (String × JSVal))
    (g : TagGroup) (p : TagProvider ModelBase) : TagGroup × TagProvider ModelBase :=
  defaults.foldl
    (fun acc kv =>
      let r := TagGroup.addTag acc.1 acc.2 kv.1
        { defaultValue := some kv.2
          dataType := some (jsTypeOf kv.2)
          description := some (modelName ++ " " ++ kv.1 ++ " parameter") }
      (r.1, r.2.1)) (g, p)

/-- `bindTagsToParams()` of the constructor: subscribe `bindingCb key` for
every current parameter key (a key outside the group makes the group's
`subscribe` throw, which propagates out of the constructor). -/
def ModelBase.bindTagsToParams (g : TagGroup) (p : TagProvider ModelBase)
    (keys : List String) : Except SetError (TagProvider ModelBase) :=
  keys.foldlM
    (fun acc key => (TagGroup.subscribe g acc key (bindingCb key)).map (fun r => r.1)) p

/-- The tag-bound `ModelBase` constructor with no parameter overrides:
`params := defaults`, a fresh group named after the model, `registerTags`,
then `bindTagsToParams`. -/
def ModelBase.construct (modelName : String) (defaults : List (String × JSVal))
    (p : TagProvider ModelBase) :
    Except SetError (ModelBase × TagGroup × TagProvider ModelBase) :=
  let m : ModelBase := { params := defaults, pcChanges := [] }
  let gp := ModelBase.registerTags modelName defaults { name := modelName, tags := [] } p
  (ModelBase.bindTagsToParams gp.1 gp.2 (m.params.map Prod.fst)).map
    (fun p2 => (m, gp.1, p2))

/-! ### Map lemmas -/

theorem mget_mset_self {κ α : Type} [DecidableEq κ] (l : List (κ × α)) (k : κ) (v : α) :
    mget (mset l k v) k = some v := by
  induction l with
  | nil => simp [mget, mset]
  | cons e rest ih =>
    by_cases h : e.1 = k <;> simp [mget, mset, h, ih]

theorem mget_mset_ne {κ α : Type} [DecidableEq κ] (l : List (κ × α)) (k k' : κ) (v : α)
    (h : k' ≠ k) : mget (mset l k v) k' = mget l k' := by
  induction l with
  | nil =>
    simp only [mset, mget]
    rw [if_neg (fun hh => h hh.symm)]
  | cons e rest ih =>
    by_cases he : e.1 = k
    · simp only [mset, if_pos he, mget]
      rw [if_neg (fun hh => h (hh.symm.trans he)), if_neg (fun hh => h (hh.symm.trans he))]
    · simp only [mset, if_neg he, mget]
      by_cases he2 : e.1 = k'
      · rw [if_pos he2, if_pos he2]
      · rw [if_neg he2, if_neg he2]
        exact ih

theorem mem_of_mget_eq_some {κ α : Type} [DecidableEq κ] {l : List (κ × α)} {k : κ} {v : α}
    (h : mget l k = some v) : (k, v) ∈ l := by
  induction l with
  | nil => simp [mget] at h
  | cons e rest ih =>
    obtain ⟨a, b⟩ := e
    by_cases he : a = k
    · subst he
      simp [mget] at h
      subst h
      exact List.mem_cons_self _ _
    · simp only [mget] at h
      rw [if_neg he] at h
      exact List.mem_cons_of_mem _ (ih h)

theorem mget_eq_some_of_mem_nodup {κ α : Type} [DecidableEq κ] {l : List (κ × α)} {k : κ} {v : α}
    (hnd : (l.map Prod.fst).Nodup) (hmem : (k, v) ∈ l) : mget l k = some v := by
  induction l with
  | nil => simp at hmem
  | cons e rest ih =>
    simp only [List.map_cons, List.nodup_cons] at hnd
    rcases List.mem_cons.1 hmem with h1 | h1
    · simp [mget, ← h1]
    · have hne : e.1 ≠ k := by
        intro he
        exact hnd.1 (he ▸ (List.mem_map.2 ⟨(k, v), h1, rfl⟩))
      simp [mget, hne, ih hnd.2 h1]

/-! ### setAlarm and validateBounds lemmas -/

theorem setAlarm_tags (p : TagProvider σ) (n sev msg : String) :
    (p.setAlarm n sev msg).tags = p.tags := rfl

theorem setAlarm_history (p : TagProvider σ) (n sev msg : String) :
    (p.setAlarm n sev msg).history = p.history := rfl

theorem setAlarm_subscribers (p : TagProvider σ) (n sev msg : String) :
    (p.setAlarm n sev msg).subscribers = p.subscribers := rfl

theorem setAlarm_alarms_self (p : TagProvider σ) (n sev msg : String) :
    (mget (p.setAlarm n sev msg).alarms n).getD [] =
      ((mget p.alarms n).getD []) ++
        [{ severity := sev, message := msg, timestamp := p.clock, acknowledged := false }] := by
  simp [TagProvider.setAlarm, mget_mset_self]

theorem setAlarm_alarms_ne (p : TagProvider σ) (n sev msg k : String) (hk : k ≠ n) :
    mget (p.setAlarm n sev msg).alarms k = mget p.alarms k := by
  simp [TagProvider.setAlarm, mget_mset_ne _ _ _ _ hk]

/-- Whether the `min` check of `setValue` fires. -/
def lowFires (tag : Tag) (v : JSVal) : Bool :=
  match tag.min with
  | some m => jsNumLt v m
  | none => false

/-- The value after the `min` check (input to the `max` check). -/
def vAfterMin (tag : Tag) (v : JSVal) : JSVal :=
  match tag.min with
  | some m => if jsNumLt v m then JSVal.num m else v
  | none => v

/-- Whether the `max` check of `setValue` fires. -/
def highFires (tag : Tag) (v : JSVal) : Bool :=
  match tag.max with
  | some m => jsNumGt (vAfterMin tag v) m
  | none => false

theorem validateBounds_tags (p : TagProvider σ) (tag : Tag) (v : JSVal) :
    (p.validateBounds tag v).1.tags = p.tags := by
  rcases hmn : tag.min with _ | m <;> rcases hmx : tag.max with _ | mx <;>
    simp [TagProvider.validateBounds, hmn, hmx, TagProvider.setAlarm] <;>
    split_ifs <;> rfl

theorem validateBounds_history (p : TagProvider σ) (tag : Tag) (v : JSVal) :
    (p.validateBounds tag v).1.history = p.history := by
  rcases hmn : tag.min with _ | m <;> rcases hmx : tag.max with _ | mx <;>
    simp [TagProvider.validateBounds, hmn, hmx, TagProvider.setAlarm] <;>
    split_ifs <;> rfl

theorem validateBounds_subscribers (p : TagProvider σ) (tag : Tag) (v : JSVal) :
    (p.validateBounds tag v).1.subscribers = p.subscribers := by
  rcases hmn : tag.min with _ | m <;> rcases hmx : tag.max with _ | mx <;>
    simp [TagProvider.validateBounds, hmn, hmx, TagProvider.setAlarm] <;>
    split_ifs <;> rfl

theorem validateBounds_snd (p : TagProvider σ) (tag : Tag) (v : JSVal) :
    (p.validateBounds tag v).2 = clampOf tag.min tag.max v := by
  rcases hmn : tag.min with _ | m <;> rcases hmx : tag.max with _ | mx <;>
    simp [TagProvider.validateBounds, clampOf, hmn, hmx] <;>
    split_ifs <;> rfl

theorem validateBounds_alarms_ne (p : TagProvider σ) (tag : Tag) (v : JSVal) (k : String)
    (hk : k ≠ tag.name) :
    mget (p.validateBounds tag v).1.alarms k = mget p.alarms k := by
  rcases hmn : tag.min with _ | m <;> rcases hmx : tag.max with _ | mx <;>
    simp only [TagProvider.validateBounds, hmn, hmx] <;>
    split_ifs <;>
    simp [setAlarm_alarms_ne _ _ _ _ _ hk]

theorem validateBounds_alarms_self (p : TagProvider σ) (tag : Tag) (v : JSVal) :
    ((mget (p.validateBounds tag v).1.alarms tag.name).getD []).map Alarm.severity =
      (((mget p.alarms tag.name).getD []).map Alarm.severity) ++
        ((if lowFires tag v then ["LOW"] else []) ++
          (if highFires tag v then ["HIGH"] else [])) := by
  rcases hmn : tag.min with _ | m <;> rcases hmx : tag.max with _ | mx <;>
    simp only [TagProvider.validateBounds, lowFires, highFires, vAfterMin, hmn, hmx] <;>
    split_ifs <;>
    simp_all [setAlarm_alarms_self, TagProvider.setAlarm, mget_mset_self]

/-! ### writeTag and setValue lemmas -/

theorem writeTag_ret (p : TagProvider σ) (tag : Tag) (v : JSVal) (o : SetOptions) (s : σ) :
    (p.writeTag tag v o s).2.2 =
      { tag with
          value := clampOf tag.min tag.max v
          timestamp := (p.validateBounds tag v).1.clock
          quality := o.quality.getD "GOOD" } := by
  simp [TagProvider.writeTag, validateBounds_snd]

theorem writeTag_fst_tags (p : TagProvider σ) (tag : Tag) (v : JSVal) (o : SetOptions) (s : σ) :
    (p.writeTag tag v o s).1.tags = mset p.tags tag.name ((p.writeTag tag v o s).2.2) := by
  simp [TagProvider.writeTag, validateBounds_tags]

theorem writeTag_tags_self (p : TagProvider σ) (tag : Tag) (v : JSVal) (o : SetOptions) (s : σ) :
    mget (p.writeTag tag v o s).1.tags tag.name = some ((p.writeTag tag v o s).2.2) := by
  rw [writeTag_fst_tags, mget_mset_self]

theorem writeTag_tags_ne (p : TagProvider σ) (tag : Tag) (v : JSVal) (o : SetOptions) (s : σ)
    (k : String) (hk : k ≠ tag.name) :
    mget (p.writeTag tag v o s).1.tags k = mget p.tags k := by
  rw [writeTag_fst_tags, mget_mset_ne _ _ _ _ hk]

theorem writeTag_fst_subscribers (p : TagProvider σ) (tag : Tag) (v : JSVal) (o : SetOptions)
    (s : σ) : (p.writeTag tag v o s).1.subscribers = p.subscribers := by
  simp [TagProvider.writeTag, validateBounds_subscribers]

theorem writeTag_fst_alarms (p : TagProvider σ) (tag : Tag) (v : JSVal) (o : SetOptions)
    (s : σ) : (p.writeTag tag v o s).1.alarms = (p.validateBounds tag v).1.alarms := by
  simp [TagProvider.writeTag]

theorem writeTag_history_self (p : TagProvider σ) (tag : Tag) (v : JSVal) (o : SetOptions)
    (s : σ) :
    mget (p.writeTag tag v o s).1.history tag.name =
      some (let h1 := ((mget p.history tag.name).getD []) ++
              [{ value := clampOf tag.min tag.max v,
                 timestamp := (p.validateBounds tag v).1.clock,
                 quality := o.quality.getD "GOOD" }]
            if 1000 < h1.length then h1.drop 1 else h1) := by
  simp [TagProvider.writeTag, validateBounds_history, validateBounds_snd, mget_mset_self]

theorem writeTag_history_ne (p : TagProvider σ) (tag : Tag) (v : JSVal) (o : SetOptions)
    (s : σ) (k : String) (hk : k ≠ tag.name) :
    mget (p.writeTag tag v o s).1.history k = mget p.history k := by
  simp [TagProvider.writeTag, validateBounds_history, mget_mset_ne _ _ _ _ hk]

theorem writeTag_snd_fst (p : TagProvider σ) (tag : Tag) (v : JSVal) (o : SetOptions) (s : σ) :
    (p.writeTag tag v o s).2.1 =
      (p.writeTag tag v o s).1.notifySubscribers tag.name (clampOf tag.min tag.max v)
        tag.value s := by
  simp [TagProvider.writeTag, validateBounds_snd]

theorem setValue_known (p : TagProvider σ) (tagName : String) (tag : Tag) (v : JSVal)
    (o : SetOptions) (s : σ) (htag : mget p.tags tagName = some tag)
    (hw : ¬(tag.writeable = false ∧ o.force = false)) :
    p.setValue tagName v o s = Except.ok (p.writeTag tag v o s) := by
  simp [TagProvider.setValue, htag, hw]

theorem setValue_readonly (p : TagProvider σ) (tagName : String) (tag : Tag) (v : JSVal)
    (o : SetOptions) (s : σ) (htag : mget p.tags tagName = some tag)
    (hw : tag.writeable = false) (hf : o.force = false) :
    p.setValue tagName v o s = Except.error (SetError.readOnly tagName) := by
  simp [TagProvider.setValue, htag, hw, hf]

theorem setValue_unknown (p : TagProvider σ) (tagName : String) (v : JSVal)
    (o : SetOptions) (s : σ) (htag : mget p.tags tagName = none) :
    p.setValue tagName v o s =
      Except.ok ((p.registerTag tagName { defaultValue := some v }).1.writeTag
        (p.registerTag tagName { defaultValue := some v }).2 v o s) := by
  simp [TagProvider.setValue, htag]

/-- With `force` set, the read-only check cannot fire: `setValue` always
succeeds. -/
theorem setValue_force_ok (p : TagProvider σ) (tagName : String) (v : JSVal)
    (q : Option String) (s : σ) :
    ∃ r, p.setValue tagName v { quality := q, force := true } s = Except.ok r := by
  rcases htag : mget p.tags tagName with _ | tag
  · exact ⟨_, setValue_unknown p tagName v _ s htag⟩
  · exact ⟨_, setValue_known p tagName tag v _ s htag (by simp)⟩

/-! ### Clamp arithmetic -/

theorem clampOf_num (m M n : Int) (h : m ≤ M) :
    clampOf (some m) (some M) (JSVal.num n) = JSVal.num (clampI m M n) := by
  simp only [clampOf, clampI, jsNumLt, jsNumGt]
  split_ifs <;> simp_all
  omega

theorem clampI_bounds (m M n : Int) (h : m ≤ M) :
    m ≤ clampI m M n ∧ clampI m M n ≤ M := by
  unfold clampI
  split_ifs <;> omega

theorem clampI_eq_iff (m M n : Int) (_h : m ≤ M) :
    clampI m M n = n ↔ m ≤ n ∧ n ≤ M := by
  unfold clampI
  split_ifs <;> constructor <;> intro h2 <;> omega

/-- C1: for a tag with both bounds set and `min <= max`, after any accepted
`setValue(name, v)` with numeric `v`, the stored value is the clamp of `v`
into `[min, max]`, lies in `[min, max]`, and equals `v` iff `v` was already
in range; an out-of-range write appends exactly one alarm (LOW below `min`,
HIGH above `max`) and an in-range write appends none, so at most one of the
two bounds checks fires per call. -/
theorem setValue_clamp_invariant (p : TagProvider σ) (tagName : String)
    (tag : Tag) (m M n : Int) (o : SetOptions) (s : σ)
    (p2 : TagProvider σ) (s2 : σ) (t2 : Tag)
    (htag : mget p.tags tagName = some tag) (hname : tag.name = tagName)
    (hmin : tag.min = some m) (hmax : tag.max = some M) (hmM : m ≤ M)
    (hok : p.setValue tagName (JSVal.num n) o s = Except.ok (p2, s2, t2)) :
    (mget p2.tags tagName).map Tag.value = some (JSVal.num (clampI m M n)) ∧
    m ≤ clampI m M n ∧ clampI m M n ≤ M ∧
    (clampI m M n = n ↔ m ≤ n ∧ n ≤ M) ∧
    ((mget p2.alarms tagName).getD []).map Alarm.severity =
      ((mget p.alarms tagName).getD []).map Alarm.severity ++
        (if n < m then ["LOW"] else if M < n then ["HIGH"] else []) := by
  by_cases hw : tag.writeable = false ∧ o.force = false
  · rw [setValue_readonly p tagName tag _ o s htag hw.1 hw.2] at hok
    cases hok
  · rw [setValue_known p tagName tag _ o s htag hw] at hok
    have hW := Except.ok.inj hok
    have hp2 : p2 = (p.writeTag tag (JSVal.num n) o s).1 := by rw [hW]
    subst hp2
    refine ⟨?_, (clampI_bounds m M n hmM).1, (clampI_bounds m M n hmM).2,
      clampI_eq_iff m M n hmM, ?_⟩
    · rw [← hname, writeTag_tags_self, writeTag_ret]
      simp [hmin, hmax, clampOf_num m M n hmM]
    · rw [← hname, writeTag_fst_alarms, validateBounds_alarms_self]
      have hlow : lowFires tag (JSVal.num n) = decide (n < m) := by
        simp [lowFires, hmin, jsNumLt]
      have hva : vAfterMin tag (JSVal.num n) =
          (if n < m then JSVal.num m else JSVal.num n) := by
        simp [vAfterMin, hmin, jsNumLt]
      have hhigh : highFires tag (JSVal.num n) =
          (if n < m then decide (M < m) else decide (M < n)) := by
        simp only [highFires, hmax, hva]
        split_ifs <;> simp [jsNumGt]
      rw [hlow, hhigh]
      by_cases h1 : n < m
      · have h2 : ¬(M < m) := by omega
        simp [h1, h2]
      · by_cases h2 : M < n <;> simp [h1, h2]

def c1p : TagProvider Unit :=
  (TagProvider.registerTag emptyProvider "b.w"
    { defaultValue := some (JSVal.num 50), min := some 10, max := some 60 }).1

def c1tag : Tag :=
  (TagProvider.registerTag (emptyProvider (σ := Unit)) "b.w"
    { defaultValue := some (JSVal.num 50), min := some 10, max := some 60 }).2

def c1W : TagProvider Unit × Unit × Tag := c1p.writeTag c1tag (JSVal.num 999) {} ()

/-- Witness for C1 at the spec's own example: bounds `[10, 60]`, write `999`:
the stored value is the clamp `60` and exactly one HIGH alarm is emitted. -/
theorem setValue_clamp_invariant_witness :
    (mget c1W.1.tags "b.w").map Tag.value = some (JSVal.num (clampI 10 60 999)) ∧
    ((mget c1W.1.alarms "b.w").getD []).map Alarm.severity =
      ((mget c1p.alarms "b.w").getD []).map Alarm.severity ++ ["HIGH"] := by
  have h := setValue_clamp_invariant c1p "b.w" c1tag 10 60 999 {} () c1W.1 c1W.2.1 c1W.2.2
    (by decide) (by decide) (by decide) (by decide) (by norm_num) rfl
  refine ⟨h.1, ?_⟩
  have h5 := h.2.2.2.2
  norm_num at h5
  exact h5

/-- C3: a write to a non-writeable tag without `force` throws
`ReadOnlyViolation` (so the caller keeps its states: nothing was mutated, no
history or alarm appended, nobody notified — the error is raised before any
mutation); the same call with `force: true` succeeds and stores the value
(the clamp of `v`, which is `v` itself when the tag has no bounds). -/
theorem setValue_readonly_enforcement (p : TagProvider σ) (tagName : String)
    (tag : Tag) (v : JSVal) (o : SetOptions) (s : σ)
    (htag : mget p.tags tagName = some tag) (hname : tag.name = tagName)
    (hw : tag.writeable = false) (hf : o.force = false) :
    p.setValue tagName v o s = Except.error (SetError.readOnly tagName) ∧
    ∃ p2 s2 t2, p.setValue tagName v { o with force := true } s = Except.ok (p2, s2, t2) ∧
      (mget p2.tags tagName).map Tag.value = some (clampOf tag.min tag.max v) ∧
      (tag.min = none → tag.max = none → clampOf tag.min tag.max v = v) := by
  refine ⟨setValue_readonly p tagName tag v o s htag hw hf, ?_⟩
  refine ⟨(p.writeTag tag v { o with force := true } s).1,
    (p.writeTag tag v { o with force := true } s).2.1,
    (p.writeTag tag v { o with force := true } s).2.2, ?_, ?_, ?_⟩
  · rw [setValue_known p tagName tag v _ s htag (by simp)]
  · rw [← hname, writeTag_tags_self]
    simp [writeTag_ret]
  · intro h1 h2
    simp [clampOf, h1, h2]

def c3p : TagProvider Unit :=
  (TagProvider.registerTag emptyProvider "ro"
    { defaultValue := some (JSVal.num 1), writeable := some false }).1

def c3tag : Tag :=
  (TagProvider.registerTag (emptyProvider (σ := Unit)) "ro"
    { defaultValue := some (JSVal.num 1), writeable := some false }).2

/-- Witness for C3 at the spec's own example: `setValue("ro", 5)` throws,
`setValue("ro", 5, {force: true})` succeeds and stores `5`. -/
theorem setValue_readonly_enforcement_witness :
    c3p.setValue "ro" (JSVal.num 5) {} () = Except.error (SetError.readOnly "ro") ∧
    ∃ p2 s2 t2, c3p.setValue "ro" (JSVal.num 5) { force := true } () = Except.ok (p2, s2, t2) ∧
      (mget p2.tags "ro").map Tag.value = some (JSVal.num 5) := by
  have h := setValue_readonly_enforcement c3p "ro" c3tag (JSVal.num 5) {} ()
    (by decide) (by decide) (by decide) (by decide)
  refine ⟨h.1, ?_⟩
  obtain ⟨p2, s2, t2, he, hv, _⟩ := h.2
  exact ⟨p2, s2, t2, he, hv.trans (by decide)⟩

/-! ### C4: notification fan-out and isolation -/

/-- One observable subscriber invocation, as recorded by the logging
callbacks used to state C4. -/
structure NotifEvent where
  label : Nat
  newValue : JSVal
  oldValue : JSVal
  tagValue : Option JSVal
deriving DecidableEq, Repr

/-- A subscriber callback that records its invocation (label and the three
arguments it received) and then optionally throws. -/
def mkLogCb (label : Nat) (thr : Bool) : Cb (List NotifEvent) := fun v old tag log =>
  (log ++ [{ label := label, newValue := v, oldValue := old,
             tagValue := tag.map Tag.value }], thr)

theorem foldl_mkLogCb (specs : List (Nat × Nat × Bool)) (v old : JSVal) (tg : Option Tag)
    (s : List NotifEvent) :
    (specs.map (fun q => (q.1, mkLogCb q.2.1 q.2.2))).foldl
        (fun acc cb => (cb.2 v old tg acc).1) s =
      s ++ specs.map (fun q =>
        { label := q.2.1, newValue := v, oldValue := old,
          tagValue := tg.map Tag.value }) := by
  induction specs generalizing s with
  | nil => simp
  | cons q rest ih => simp [mkLogCb, ih]

theorem notifySubscribers_log (p : TagProvider (List NotifEvent)) (tagName : String)
    (specs : List (Nat × Nat × Bool)) (v old : JSVal) (s : List NotifEvent)
    (hsubs : mget p.subscribers tagName =
      some (specs.map (fun q => (q.1, mkLogCb q.2.1 q.2.2)))) :
    p.notifySubscribers tagName v old s =
      s ++ specs.map (fun q =>
        { label := q.2.1, newValue := v, oldValue := old,
          tagValue := (mget p.tags tagName).map Tag.value }) := by
  simp only [TagProvider.notifySubscribers, hsubs]
  exact foldl_mkLogCb specs v old (mget p.tags tagName) s

/-- C4: on a writeable tag, `setValue` returns `ok` — so no subscriber error
propagates out of it — and every subscriber registered for the tag is
invoked exactly once, synchronously, in registration order, with
`(clampedNewValue, oldValue, updatedTag)`; this holds for every combination
of throw flags, so a throwing callback neither suppresses later callbacks
nor surfaces to the caller. -/
theorem setValue_notification (p : TagProvider (List NotifEvent)) (tagName : String)
    (tag : Tag) (specs : List (Nat × Nat × Bool)) (v : JSVal) (o : SetOptions)
    (s : List NotifEvent)
    (htag : mget p.tags tagName = some tag) (hname : tag.name = tagName)
    (hw : tag.writeable = true)
    (hsubs : mget p.subscribers tagName =
      some (specs.map (fun q => (q.1, mkLogCb q.2.1 q.2.2)))) :
    ∃ p2 s2 t2, p.setValue tagName v o s = Except.ok (p2, s2, t2) ∧
      s2 = s ++ specs.map (fun q =>
        { label := q.2.1, newValue := clampOf tag.min tag.max v, oldValue := tag.value,
          tagValue := some (clampOf tag.min tag.max v) }) := by
  refine ⟨(p.writeTag tag v o s).1, (p.writeTag tag v o s).2.1,
    (p.writeTag tag v o s).2.2, ?_, ?_⟩
  · rw [setValue_known p tagName tag v o s htag (by simp [hw])]
  · rw [writeTag_snd_fst]
    rw [notifySubscribers_log _ _ specs _ _ _ (by
      rw [writeTag_fst_subscribers, hname]
      exact hsubs)]
    have htv : (mget (p.writeTag tag v o s).1.tags tagName).map Tag.value =
        some (clampOf tag.min tag.max v) := by
      rw [← hname, writeTag_tags_self]
      simp [writeTag_ret]
    rw [← hname] at htv
    rw [htv]

def c4p : TagProvider (List NotifEvent) :=
  (TagProvider.subscribe
    (TagProvider.subscribe
      (TagProvider.registerTag emptyProvider "t" { defaultValue := some (JSVal.num 1) }).1
      ["t"] (mkLogCb 0 false)).1
    ["t"] (mkLogCb 1 true)).1

def c4tag : Tag :=
  (TagProvider.registerTag (emptyProvider (σ := List NotifEvent)) "t"
    { defaultValue := some (JSVal.num 1) }).2

/-- Witness for C4: two subscribers (the second one throwing) both get
invoked once, in registration order, with the new value `7`, the old value
`1` and the updated tag; `setValue` itself returns `ok`. -/
theorem setValue_notification_witness :
    ∃ p2 s2 t2, c4p.setValue "t" (JSVal.num 7) {} [] = Except.ok (p2, s2, t2) ∧
      s2 = [{ label := 0, newValue := JSVal.num 7, oldValue := JSVal.num 1,
              tagValue := some (JSVal.num 7) },
            { label := 1, newValue := JSVal.num 7, oldValue := JSVal.num 1,
              tagValue := some (JSVal.num 7) }] := by
  obtain ⟨p2, s2, t2, h1, h2⟩ := setValue_notification c4p "t" c4tag
    [(0, 0, false), (1, 1, true)] (JSVal.num 7) {} [] (by decide) (by decide)
    (by decide) rfl
  exact ⟨p2, s2, t2, h1, h2.trans (by decide)⟩

/-! ### C5: the bounded history ring -/

/-- The last `n` elements of a list. -/
def lastN {α : Type} (n : Nat) (l : List α) : List α := l.drop (l.length - n)

theorem lastN_of_le {α : Type} (n : Nat) (l : List α) (h : l.length ≤ n) : lastN n l = l := by
  simp [lastN, Nat.sub_eq_zero_of_le h]

theorem lastN_length {α : Type} (n : Nat) (l : List α) : (lastN n l).length = min n l.length := by
  simp only [lastN, List.length_drop]
  omega

/-- One push-then-evict step of the history cap, applied to a list that is
already the last 1000 of `A`, lands on the last 1000 of `A ++ [c]`. -/
theorem stepCap_lastN {α : Type} (A : List α) (c : α) :
    (if 1000 < (lastN 1000 A ++ [c]).length then (lastN 1000 A ++ [c]).drop 1
     else lastN 1000 A ++ [c]) = lastN 1000 (A ++ [c]) := by
  rcases le_or_lt A.length 1000 with h | h
  · rw [lastN_of_le 1000 A h]
    by_cases h2 : 1000 < (A ++ [c]).length
    · have hA : A.length = 1000 := by
        simp only [List.length_append, List.length_singleton] at h2
        omega
      rw [if_pos h2]
      unfold lastN
      have hc1 : (A ++ [c]).length - 1000 = 1 := by
        simp only [List.length_append, List.length_singleton, hA]
      rw [hc1]
    · rw [if_neg h2]
      rw [lastN_of_le]
      simp only [List.length_append, List.length_singleton] at h2 ⊢
      omega
  · have hL : (lastN 1000 A).length = 1000 := by rw [lastN_length]; omega
    have hcond : 1000 < (lastN 1000 A ++ [c]).length := by simp [hL]
    rw [if_pos hcond]
    unfold lastN
    rw [List.drop_append_of_le_length (by rw [List.length_drop]; omega),
      List.drop_drop]
    rw [List.length_append, List.length_singleton,
      List.drop_append_of_le_length (by omega)]
    have he : A.length - 1000 + 1 = A.length + 1 - 1000 := by omega
    rw [he]

/-- `List.map`ping the value projection through one push-then-evict step. -/
theorem map_stepCap (H : List HistoryEntry) (e : HistoryEntry) :
    (if 1000 < (H ++ [e]).length then (H ++ [e]).drop 1 else H ++ [e]).map
        HistoryEntry.value =
      (if 1000 < (H.map HistoryEntry.value ++ [e.value]).length
       then (H.map HistoryEntry.value ++ [e.value]).drop 1
       else H.map HistoryEntry.value ++ [e.value]) := by
  by_cases h : 1000 < (H ++ [e]).length
  · rw [if_pos h, if_pos (by simpa using h)]
    simp [List.map_drop]
  · rw [if_neg h, if_neg (by simpa using h)]
    simp

theorem writeAll_cons (p : TagProvider σ) (t : String) (v : JSVal) (rest : List JSVal)
    (s : σ) :
    writeAll p t (v :: rest) s = writeAll (runSet p t v s).1 t rest (runSet p t v s).2 :=
  rfl

theorem runSet_writeable (p : TagProvider σ) (tagName : String) (tag : Tag) (v : JSVal)
    (s : σ) (htag : mget p.tags tagName = some tag) (hw : tag.writeable = true) :
    runSet p tagName v s = ((p.writeTag tag v {} s).1, (p.writeTag tag v {} s).2.1) := by
  unfold runSet
  rw [setValue_known p tagName tag v {} s htag (by simp [hw])]

/-- After any sequence of accepted writes, a tag's history values are the
last 1000 of the starting window extended by the clamped written values. -/
theorem writeAll_history_values (vs : List JSVal) :
    ∀ (p : TagProvider σ) (tag : Tag) (s : σ) (A : List JSVal),
      mget p.tags tag.name = some tag → tag.writeable = true →
      ((mget p.history tag.name).getD []).map HistoryEntry.value = lastN 1000 A →
      ((mget (writeAll p tag.name vs s).1.history tag.name).getD []).map
          HistoryEntry.value =
        lastN 1000 (A ++ vs.map (clampOf tag.min tag.max)) := by
  induction vs with
  | nil =>
    intro p tag s A htag hw hhv
    simpa [writeAll] using hhv
  | cons v rest ih =>
    intro p tag s A htag hw hhv
    rw [writeAll_cons, runSet_writeable p tag.name tag v s htag hw]
    have hname2 : ((p.writeTag tag v {} s).2.2).name = tag.name := by
      simp [writeTag_ret]
    have htag2 : mget (p.writeTag tag v {} s).1.tags ((p.writeTag tag v {} s).2.2).name =
        some ((p.writeTag tag v {} s).2.2) := by
      rw [hname2]
      exact writeTag_tags_self p tag v {} s
    have hw2 : ((p.writeTag tag v {} s).2.2).writeable = true := by
      simp [writeTag_ret, hw]
    have hhv2 : ((mget (p.writeTag tag v {} s).1.history
          ((p.writeTag tag v {} s).2.2).name).getD []).map HistoryEntry.value =
        lastN 1000 (A ++ [clampOf tag.min tag.max v]) := by
      rw [hname2, writeTag_history_self]
      simp only [Option.getD_some]
      rw [map_stepCap]
      simp only [List.map_append]
      rw [hhv]
      exact stepCap_lastN A (clampOf tag.min tag.max v)
    have hres := ih (p.writeTag tag v {} s).1 ((p.writeTag tag v {} s).2.2)
      (p.writeTag tag v {} s).2.1 (A ++ [clampOf tag.min tag.max v]) htag2 hw2 hhv2
    rw [hname2] at hres
    rw [hres]
    have hmin2 : ((p.writeTag tag v {} s).2.2).min = tag.min := by simp [writeTag_ret]
    have hmax2 : ((p.writeTag tag v {} s).2.2).max = tag.max := by simp [writeTag_ret]
    rw [hmin2, hmax2]
    simp [List.append_assoc]

/-- C5: the history log of one tag never exceeds 1000 entries; each accepted
`setValue` appends one entry recording the (possibly clamped) written value
and evicts the oldest entry once at capacity, so after more than 1000 writes
`getHistory(name, 1000)` returns exactly 1000 entries whose values are the
values recorded by the most recent 1000 writes, oldest first; `getHistory`
on a name with no history log returns the empty sequence. -/
theorem history_bound (p : TagProvider σ) (tagName : String) (tag : Tag)
    (vs : List JSVal) (s : σ)
    (htag : mget p.tags tagName = some tag) (hname : tag.name = tagName)
    (hw : tag.writeable = true) (hfresh : mget p.history tagName = some [])
    (hN : 1000 < vs.length) :
    ((writeAll p tagName vs s).1.getHistory tagName 1000).length = 1000 ∧
    ((writeAll p tagName vs s).1.getHistory tagName 1000).map HistoryEntry.value =
      (vs.map (clampOf tag.min tag.max)).drop (vs.length - 1000) ∧
    (∀ (q : TagProvider σ) (u : String) (lim : Nat), mget q.history u = none →
      q.getHistory u lim = []) := by
  subst hname
  have hfin := writeAll_history_values vs p tag s [] htag hw
    (by simp [hfresh, lastN])
  simp only [List.nil_append] at hfin
  have hlen : ((mget (writeAll p tag.name vs s).1.history tag.name).getD []).length =
      1000 := by
    have hc := congrArg List.length hfin
    rw [List.length_map, lastN_length, List.length_map] at hc
    rw [hc]
    omega
  have hgh : (writeAll p tag.name vs s).1.getHistory tag.name 1000 =
      (mget (writeAll p tag.name vs s).1.history tag.name).getD [] := by
    unfold TagProvider.getHistory
    rw [if_neg (by omega)]
    rw [hlen]
    simp
  refine ⟨?_, ?_, ?_⟩
  · rw [hgh, hlen]
  · rw [hgh, hfin]
    unfold lastN
    rw [List.length_map]
  · intro q u lim hq
    simp [TagProvider.getHistory, hq]

def vs1001 : List JSVal := (List.range 1001).map (fun i => JSVal.num (Int.ofNat i))

def c5p : TagProvider Unit := (TagProvider.registerTag emptyProvider "h" {}).1

def c5tag : Tag := (TagProvider.registerTag (emptyProvider (σ := Unit)) "h" {}).2

/-- Witness for C5: 1001 writes to one fresh tag leave exactly 1000 entries
in `getHistory(name, 1000)`. -/
theorem history_bound_witness :
    1000 < vs1001.length ∧
    ((writeAll c5p "h" vs1001 ()).1.getHistory "h" 1000).length = 1000 := by
  have hlen : vs1001.length = 1001 := by simp [vs1001]
  have h := history_bound c5p "h" c5tag vs1001 () (by decide) (by decide) (by decide)
    (by decide) (by rw [hlen]; omega)
  exact ⟨by rw [hlen]; omega, h.1⟩

/-! ### C6: group operations on unknown local names -/

def c6g : TagGroup := { name := "g", tags := [] }

/-- Counterexample to C6 as stated: for a local name never added to the
group, `TagGroup.getValue` returns `undefined` (modelled `none`) instead of
failing with a `TagNotInGroup` error — its result type in the embedding has
no error case at all, mirroring the source line
`return fullName ? this.tagProvider.getValue(fullName) : undefined`. -/
theorem tagGroup_getValue_undefined_cex :
    TagGroup.getValue c6g (emptyProvider (σ := Unit)) "w" = none :=
  rfl

/-- C6 amended: for a local name never added via `addTag`, the group's
`setValue` and `subscribe` fail with `TagNotInGroup`, while `getValue`
returns `undefined` (no error). -/
theorem tagGroup_unknown_local (g : TagGroup) (p : TagProvider σ) (lname : String)
    (v : JSVal) (o : SetOptions) (s : σ) (cb : Cb σ)
    (h : mget g.tags lname = none) :
    TagGroup.setValue g p lname v o s =
      Except.error (SetError.tagNotInGroup lname g.name) ∧
    TagGroup.subscribe g p lname cb =
      Except.error (SetError.tagNotInGroup lname g.name) ∧
    TagGroup.getValue g p lname = none := by
  refine ⟨?_, ?_, ?_⟩ <;>
    simp [TagGroup.setValue, TagGroup.subscribe, TagGroup.getValue, h]

/-- Witness for the amended C6 on a concrete empty group. -/
theorem tagGroup_unknown_local_witness :
    TagGroup.setValue c6g (emptyProvider (σ := Unit)) "w" (JSVal.num 1) {} () =
      Except.error (SetError.tagNotInGroup "w" "g") ∧
    TagGroup.subscribe c6g (emptyProvider (σ := Unit)) "w" (fun _ _ _ s => (s, false)) =
      Except.error (SetError.tagNotInGroup "w" "g") := by
  have h := tagGroup_unknown_local c6g (emptyProvider (σ := Unit)) "w" (JSVal.num 1) {} ()
    (fun _ _ _ s => (s, false)) rfl
  exact ⟨h.1, h.2.1⟩

/-! ### C7: history lifecycle -/

def c7p0 : TagProvider Unit := (TagProvider.registerTag emptyProvider "t" {}).1

def c7p1 : TagProvider Unit := (runSet c7p0 "t" (JSVal.num 1) ()).1

def c7p2 : TagProvider Unit := (TagProvider.registerTag c7p1 "t" {}).1

/-- Counterexample to C7 as stated: after one accepted write the tag's
history holds one entry, and re-registering the same name via `registerTag`
(not `clear`) resets that history to empty — `registerTag` runs
`this.history.set(tagName, [])` unconditionally. -/
theorem registerTag_clears_history_cex :
    ((mget c7p1.history "t").getD []).length = 1 ∧
    (mget c7p2.history "t").getD [] = [] := by decide

/-- C7 amended: a tag's history is appended to by every accepted `setValue`
(evicting the oldest entry only at the 1000 cap), left untouched for other
tags, emptied for all tags by the bulk `clear()`, and — in addition to the
claim — reset to empty for a tag whose name is re-registered via
`registerTag` (which overwrites without error); `registerTag` leaves other
tags' histories unchanged. -/
theorem history_lifecycle (p : TagProvider σ) (tagName other : String) (cfg : TagConfig)
    (tag : Tag) (v : JSVal) (o : SetOptions) (s : σ)
    (p2 : TagProvider σ) (s2 : σ) (t2 : Tag)
    (hother : other ≠ tagName)
    (htag : mget p.tags tagName = some tag) (hname : tag.name = tagName)
    (hok : p.setValue tagName v o s = Except.ok (p2, s2, t2)) :
    mget (p.registerTag tagName cfg).1.history tagName = some [] ∧
    mget (p.registerTag tagName cfg).1.history other = mget p.history other ∧
    (p.clear).history = [] ∧
    ((mget p2.history tagName).getD [] =
      (let h1 := ((mget p.history tagName).getD []) ++
        [{ value := clampOf tag.min tag.max v,
           timestamp := (p.validateBounds tag v).1.clock,
           quality := o.quality.getD "GOOD" }]
       if 1000 < h1.length then h1.drop 1 else h1)) ∧
    mget p2.history other = mget p.history other := by
  refine ⟨?_, ?_, rfl, ?_, ?_⟩
  · simp [TagProvider.registerTag, mget_mset_self]
  · simp [TagProvider.registerTag, mget_mset_ne _ _ _ _ hother]
  all_goals {
    by_cases hw : tag.writeable = false ∧ o.force = false
    · rw [setValue_readonly p tagName tag _ o s htag hw.1 hw.2] at hok
      cases hok
    · rw [setValue_known p tagName tag _ o s htag hw] at hok
      have hW := Except.ok.inj hok
      have hp2 : p2 = (p.writeTag tag v o s).1 := by rw [hW]
      subst hp2
      first
      | (rw [← hname, writeTag_history_self]
         simp [hname])
      | (rw [writeTag_history_ne p tag v o s other (by rw [hname]; exact hother)])
  }

def c7tag : Tag := (TagProvider.registerTag (emptyProvider (σ := Unit)) "t" {}).2

def c7W : TagProvider Unit × Unit × Tag := c7p0.writeTag c7tag (JSVal.num 1) {} ()

/-- Witness for the amended C7 at a concrete one-tag registry. -/
theorem history_lifecycle_witness :
    mget (c7p0.registerTag "t" {}).1.history "t" = some [] ∧
    (mget c7W.1.history "t").getD [] =
      [{ value := JSVal.num 1, timestamp := 1, quality := "GOOD" }] := by
  have h := history_lifecycle c7p0 "t" "u" {} c7tag (JSVal.num 1) {} () c7W.1 c7W.2.1
    c7W.2.2 (by decide) (by decide) (by decide) rfl
  refine ⟨h.1, ?_⟩
  have h4 := h.2.2.2.1
  rw [h4]
  decide

/-! ### C2: setParam double-notification, clamped value wins -/

theorem notifySubscribers_binding (p : TagProvider ModelBase) (tagName key : String)
    (sid : Nat) (v old : JSVal) (m : ModelBase)
    (hsubs : mget p.subscribers tagName = some [(sid, bindingCb key)]) :
    p.notifySubscribers tagName v old m =
      { params := mset m.params key v, pcChanges := m.pcChanges ++ [(key, v)] } := by
  simp [TagProvider.notifySubscribers, hsubs, bindingCb]

/-- C2: on a tag-bound model whose tag for `key` has bounds `min <= max` and
whose subscription for that tag is the model's own binding, `setParam(key, v)`
with an out-of-range numeric `v` returns without error, and when it returns
the local `params[key]`, the registry's stored value, and the argument of the
`onParameterChange` invocation all equal the clamped value (the raw
assignment made first inside `setParam` has been overwritten by the
synchronous tag notification: the clamped value wins). -/
theorem setParam_clamped_wins (g : TagGroup) (p : TagProvider ModelBase) (m : ModelBase)
    (key fullName : String) (tag : Tag) (mn mx n : Int) (sid : Nat)
    (hkey : mget g.tags key = some fullName)
    (htag : mget p.tags fullName = some tag) (hname : tag.name = fullName)
    (hmin : tag.min = some mn) (hmax : tag.max = some mx) (hmM : mn ≤ mx)
    (hw : tag.writeable = true)
    (hsubs : mget p.subscribers fullName = some [(sid, bindingCb key)])
    (hout : n < mn ∨ mx < n) :
    ∃ m2 p2, ModelBase.setParam g p m key (JSVal.num n) = (m2, p2, none) ∧
      mget m2.params key = some (JSVal.num (clampI mn mx n)) ∧
      (mget p2.tags fullName).map Tag.value = some (JSVal.num (clampI mn mx n)) ∧
      m2.pcChanges = m.pcChanges ++ [(key, JSVal.num (clampI mn mx n))] ∧
      JSVal.num (clampI mn mx n) ≠ JSVal.num n := by
  have hclamp : clampOf tag.min tag.max (JSVal.num n) = JSVal.num (clampI mn mx n) := by
    rw [hmin, hmax]
    exact clampOf_num mn mx n hmM
  have hm1 : TagGroup.setValue g p key (JSVal.num n) {}
      { m with params := mset m.params key (JSVal.num n) } =
      Except.ok (p.writeTag tag (JSVal.num n) {}
        { m with params := mset m.params key (JSVal.num n) }) := by
    simp only [TagGroup.setValue, hkey]
    exact setValue_known p fullName tag _ {} _ htag (by simp [hw])
  refine ⟨(p.writeTag tag (JSVal.num n) {}
      { m with params := mset m.params key (JSVal.num n) }).2.1,
    (p.writeTag tag (JSVal.num n) {}
      { m with params := mset m.params key (JSVal.num n) }).1, ?_, ?_, ?_, ?_, ?_⟩
  · unfold ModelBase.setParam
    simp only [hm1]
  · rw [writeTag_snd_fst, hname]
    rw [notifySubscribers_binding _ fullName key sid _ _ _
      (by rw [writeTag_fst_subscribers]; exact hsubs)]
    simp [hclamp, mget_mset_self]
  · rw [← hname, writeTag_tags_self]
    simp [writeTag_ret, hclamp]
  · rw [writeTag_snd_fst, hname]
    rw [notifySubscribers_binding _ fullName key sid _ _ _
      (by rw [writeTag_fst_subscribers]; exact hsubs)]
    simp [hclamp]
  · simp only [ne_eq, JSVal.num.injEq]
    unfold clampI
    rcases hout with h | h
    · rw [if_pos h]
      omega
    · rw [if_neg (by omega), if_pos h]
      omega

def c2p0 : TagProvider ModelBase :=
  match ModelBase.construct "m" [("width", JSVal.num 50)] emptyProvider with
  | Except.ok r => r.2.2
  | Except.error _ => emptyProvider

def c2g : TagGroup :=
  match ModelBase.construct "m" [("width", JSVal.num 50)] emptyProvider with
  | Except.ok r => r.2.1
  | Except.error _ => { name := "m", tags := [] }

def c2m : ModelBase := { params := [("width", JSVal.num 50)], pcChanges := [] }

def c2p : TagProvider ModelBase :=
  (TagProvider.registerTag c2p0 "m.width"
    { defaultValue := some (JSVal.num 50), min := some 10, max := some 60 }).1

def c2tag : Tag :=
  (TagProvider.registerTag c2p0 "m.width"
    { defaultValue := some (JSVal.num 50), min := some 10, max := some 60 }).2

/-- Witness for C2 on the spec's end-to-end scenario: a model constructed
with default `width = 50`, its tag re-registered with bounds `[10, 60]`,
then `setParam('width', 999)`: params, registry and the change hook all see
the clamped `60`. -/
theorem setParam_clamped_wins_witness :
    ∃ m2 p2, ModelBase.setParam c2g c2p c2m "width" (JSVal.num 999) = (m2, p2, none) ∧
      mget m2.params "width" = some (JSVal.num (clampI 10 60 999)) ∧
      (mget p2.tags "m.width").map Tag.value = some (JSVal.num (clampI 10 60 999)) ∧
      m2.pcChanges = [("width", JSVal.num (clampI 10 60 999))] := by
  have h := setParam_clamped_wins c2g c2p c2m "width" "m.width" c2tag 10 60 999 0
    rfl (by decide) (by decide) (by decide) (by decide) (by norm_num) (by decide)
    rfl (Or.inr (by norm_num))
  obtain ⟨m2, p2, h1, h2, h3, h4, _⟩ := h
  exact ⟨m2, p2, h1, h2, h3, h4⟩

/-! ### C10: setParam has no rollback on a failed push -/

/-- C10: when the group push inside `setParam` fails — the key was never
added to the group, or the underlying tag is read-only — the error
propagates to the `setParam` caller, yet `params[key]` already holds the raw
new value and the registry is returned untouched: the parameter bag and the
tag diverge, with no rollback. -/
theorem setParam_no_rollback (g : TagGroup) (p : TagProvider ModelBase) (m : ModelBase)
    (key : String) (v : JSVal)
    (h : mget g.tags key = none ∨
      ∃ fn tag, mget g.tags key = some fn ∧ mget p.tags fn = some tag ∧
        tag.writeable = false) :
    ∃ e, ModelBase.setParam g p m key v =
        ({ m with params := mset m.params key v }, p, some e) ∧
      (mget g.tags key = none → e = SetError.tagNotInGroup key g.name) ∧
      (∀ fn, mget g.tags key = some fn → e = SetError.readOnly fn) := by
  rcases h with h | ⟨fn, tag, hfn, htag, hro⟩
  · refine ⟨SetError.tagNotInGroup key g.name, ?_, fun _ => rfl, ?_⟩
    · unfold ModelBase.setParam
      simp only [TagGroup.setValue, h]
    · intro fn hfn
      rw [h] at hfn
      cases hfn
  · refine ⟨SetError.readOnly fn, ?_, ?_, ?_⟩
    · unfold ModelBase.setParam
      simp only [TagGroup.setValue, hfn]
      rw [setValue_readonly p fn tag v {} _ htag hro rfl]
    · intro h0
      rw [h0] at hfn
      cases hfn
    · intro fn2 hfn2
      rw [hfn] at hfn2
      rw [Option.some.inj hfn2]

def c10g : TagGroup := { name := "n", tags := [] }

/-- Witness for C10: pushing an unknown key leaves the raw value in `params`
and the registry untouched while the `TagNotInGroup` error propagates. -/
theorem setParam_no_rollback_witness :
    ∃ e, ModelBase.setParam c10g emptyProvider { params := [], pcChanges := [] } "k"
        (JSVal.num 3) =
      ({ params := [("k", JSVal.num 3)], pcChanges := [] }, emptyProvider, some e) := by
  have h := setParam_no_rollback c10g emptyProvider { params := [], pcChanges := [] }
    "k" (JSVal.num 3) (Or.inl rfl)
  obtain ⟨e, h1, _, _⟩ := h
  exact ⟨e, h1⟩

/-! ### C8: glob matching -/

/-- Declarative anchored-matching semantics of the token regexes: a literal
consumes exactly itself, `dot` consumes any one character, `star` (the
translation of `*` into `.*`) consumes any prefix. -/
inductive TokMatches : List Tok → List Char → Prop where
  | nil : TokMatches [] []
  | lit (c : Char) (ts : List Tok) (cs : List Char) :
      TokMatches ts cs → TokMatches (Tok.lit c :: ts) (c :: cs)
  | dot (c : Char) (ts : List Tok) (cs : List Char) :
      TokMatches ts cs → TokMatches (Tok.dot :: ts) (c :: cs)
  | star (pre suf : List Char) (ts : List Tok) :
      TokMatches ts suf → TokMatches (Tok.star :: ts) (pre ++ suf)

theorem suffixMatch_iff (f : List Char → Bool) (cs : List Char) :
    suffixMatch f cs = true ↔ ∃ pre suf, cs = pre ++ suf ∧ f suf = true := by
  induction cs with
  | nil =>
    simp only [suffixMatch]
    constructor
    · intro h
      exact ⟨[], [], rfl, h⟩
    · rintro ⟨pre, suf, heq, hf⟩
      obtain ⟨rfl, rfl⟩ := List.append_eq_nil.1 heq.symm
      exact hf
  | cons c cs ih =>
    simp only [suffixMatch, Bool.or_eq_true]
    constructor
    · rintro (h | h)
      · exact ⟨[], c :: cs, rfl, h⟩
      · obtain ⟨pre, suf, rfl, hf⟩ := ih.1 h
        exact ⟨c :: pre, suf, rfl, hf⟩
    · rintro ⟨pre, suf, heq, hf⟩
      cases pre with
      | nil =>
        left
        rw [heq]
        exact hf
      | cons x pre2 =>
        right
        rw [List.cons_append] at heq
        obtain ⟨hcx, hcs⟩ := List.cons.inj heq
        exact ih.2 ⟨pre2, suf, hcs, hf⟩

/-- The executable matcher agrees with the declarative semantics. -/
theorem tmatch_iff (ts : List Tok) : ∀ cs, tmatch ts cs = true ↔ TokMatches ts cs := by
  induction ts with
  | nil =>
    intro cs
    cases cs with
    | nil =>
      simp only [tmatch, List.isEmpty_nil]
      exact ⟨fun _ => TokMatches.nil, fun _ => trivial⟩
    | cons c cs =>
      simp only [tmatch, List.isEmpty_cons]
      constructor
      · intro h
        cases h
      · intro h
        cases h
  | cons t ts ih =>
    cases t with
    | lit c =>
      intro cs
      cases cs with
      | nil =>
        simp only [tmatch]
        constructor
        · intro h
          cases h
        · intro h
          cases h
      | cons x xs =>
        simp only [tmatch, Bool.and_eq_true, decide_eq_true_eq]
        constructor
        · rintro ⟨rfl, h⟩
          exact TokMatches.lit x ts xs ((ih xs).1 h)
        · intro h
          cases h with
          | lit _ _ _ h2 => exact ⟨rfl, (ih xs).2 h2⟩
    | dot =>
      intro cs
      cases cs with
      | nil =>
        simp only [tmatch]
        constructor
        · intro h
          cases h
        · intro h
          cases h
      | cons x xs =>
        simp only [tmatch]
        constructor
        · intro h
          exact TokMatches.dot x ts xs ((ih xs).1 h)
        · intro h
          cases h with
          | dot _ _ _ h2 => exact (ih xs).2 h2
    | star =>
      intro cs
      rw [show tmatch (Tok.star :: ts) cs = suffixMatch (tmatch ts) cs from rfl,
        suffixMatch_iff]
      constructor
      · rintro ⟨pre, suf, rfl, hf⟩
        exact TokMatches.star pre suf ts ((ih suf).1 hf)
      · intro h
        cases h with
        | star pre suf _ h2 => exact ⟨pre, suf, rfl, (ih suf).2 h2⟩

def c8p : TagProvider Unit :=
  (TagProvider.registerTag
    (TagProvider.registerTag emptyProvider "bracket.width" {}).1 "bracketswidth" {}).1

/-- Counterexample to C8 as stated: the source builds the regex from the raw
pattern (`pattern.replace(/\*/g, '.*')` — no regex escaping), so the `'.'`
of the pattern `"bracket.*"` matches any character and `getTags` also
returns the tag `"bracketswidth"`, whereas the claim's escaped regex
(`translateSpec`) matches `"bracket.width"` only. -/
theorem getTags_unescaped_cex :
    (c8p.getTags "bracket.*").map Tag.name = ["bracket.width", "bracketswidth"] ∧
    ((c8p.tags.map Prod.snd).filter
        (fun t => tmatch (translateSpec "bracket.*") t.name.toList)).map Tag.name =
      ["bracket.width"] := by decide

def c8q : TagProvider Unit :=
  (TagProvider.registerTag
    (TagProvider.registerTag
      (TagProvider.registerTag emptyProvider "bracket.width" {}).1
      "bracket.height" {}).1
    "motor.rpm" {}).1

/-- C8 amended: `getTags('*')` returns all registered tags in registration
order; any other pattern filters the registration-ordered tags by the
anchored regex built WITHOUT escaping (`'^'` + pattern with `'*'` → `.*` +
`'$'`, so a `'.'` in the pattern keeps its any-character regex meaning),
characterized by the declarative `TokMatches` semantics; on the spec's
example registry the pattern `"bracket.*"` still returns exactly
`bracket.width` and `bracket.height`, in registration order. -/
theorem getTags_glob (p : TagProvider σ) (pattern : String) (hp : pattern ≠ "*") :
    p.getTags "*" = p.tags.map Prod.snd ∧
    (∀ t : Tag, t ∈ p.getTags pattern ↔
      t ∈ p.tags.map Prod.snd ∧ TokMatches (translateCode pattern) t.name.toList) ∧
    (p.getTags pattern).Sublist (p.tags.map Prod.snd) ∧
    (c8q.getTags "bracket.*").map Tag.name = ["bracket.width", "bracket.height"] := by
  refine ⟨by simp [TagProvider.getTags], ?_, ?_, by decide⟩
  · intro t
    simp only [TagProvider.getTags, if_neg hp]
    rw [List.mem_filter]
    constructor
    · rintro ⟨h1, h2⟩
      exact ⟨h1, (tmatch_iff _ _).1 h2⟩
    · rintro ⟨h1, h2⟩
      exact ⟨h1, (tmatch_iff _ _).2 h2⟩
  · simp only [TagProvider.getTags, if_neg hp]
    exact List.filter_sublist _

/-- Witness for the amended C8 at the spec's example pattern. -/
theorem getTags_glob_witness :
    ("bracket.*" : String) ≠ "*" ∧
    (c8q.getTags "bracket.*").Sublist (c8q.tags.map Prod.snd) := by
  exact ⟨by decide, (getTags_glob c8q "bracket.*" (by decide)).2.2.1⟩

/-! ### C9: export/import round trip -/

theorem registerTag_ret_name (p : TagProvider σ) (k : String) (cfg : TagConfig) :
    (p.registerTag k cfg).2.name = k := rfl

theorem registerTag_tags_self (p : TagProvider σ) (k : String) (cfg : TagConfig) :
    mget (p.registerTag k cfg).1.tags k = some (p.registerTag k cfg).2 := by
  simp [TagProvider.registerTag, mget_mset_self]

theorem registerTag_tags_ne (p : TagProvider σ) (k : String) (cfg : TagConfig) (n : String)
    (hn : n ≠ k) : mget (p.registerTag k cfg).1.tags n = mget p.tags n := by
  simp [TagProvider.registerTag, mget_mset_ne _ _ _ _ hn]

theorem importOne_obj_eq {p : TagProvider σ} {s : σ} {k : String} {v : JSVal}
    {q : Option String} {r : TagProvider σ × σ × Tag}
    (h : p.setValue k v { quality := q, force := true } s = Except.ok r) :
    TagProvider.importOne p s k (ImportDatum.obj v q) = (r.1, r.2.1) := by
  simp only [TagProvider.importOne, h]

theorem importOne_scalar_eq {p : TagProvider σ} {s : σ} {k : String} {v : JSVal}
    {r : TagProvider σ × σ × Tag}
    (h : p.setValue k v { force := true } s = Except.ok r) :
    TagProvider.importOne p s k (ImportDatum.scalar v) = (r.1, r.2.1) := by
  simp only [TagProvider.importOne, h]

theorem importOne_tags_ne (p : TagProvider σ) (s : σ) (k : String) (d : ImportDatum)
    (n : String) (hwfk : ∀ t, mget p.tags k = some t → t.name = k) (hn : n ≠ k) :
    mget (TagProvider.importOne p s k d).1.tags n = mget p.tags n := by
  rcases htag : mget p.tags k with _ | tag
  · cases d with
    | obj v q =>
      rw [importOne_obj_eq (setValue_unknown p k v _ s htag)]
      rw [writeTag_tags_ne _ _ _ _ _ n (by rw [registerTag_ret_name]; exact hn)]
      exact registerTag_tags_ne p k _ n hn
    | scalar v =>
      rw [importOne_scalar_eq (setValue_unknown p k v _ s htag)]
      rw [writeTag_tags_ne _ _ _ _ _ n (by rw [registerTag_ret_name]; exact hn)]
      exact registerTag_tags_ne p k _ n hn
  · have hname := hwfk tag htag
    cases d with
    | obj v q =>
      rw [importOne_obj_eq (setValue_known p k tag v _ s htag (by simp))]
      rw [writeTag_tags_ne _ _ _ _ _ n (by rw [hname]; exact hn)]
    | scalar v =>
      rw [importOne_scalar_eq (setValue_known p k tag v _ s htag (by simp))]
      rw [writeTag_tags_ne _ _ _ _ _ n (by rw [hname]; exact hn)]

theorem importOne_tags_self (p : TagProvider σ) (s : σ) (k : String) (d : ImportDatum)
    (hwfk : ∀ t, mget p.tags k = some t → t.name = k) :
    ∃ t2, mget (TagProvider.importOne p s k d).1.tags k = some t2 ∧ t2.name = k := by
  rcases htag : mget p.tags k with _ | tag
  · cases d with
    | obj v q =>
      rw [importOne_obj_eq (setValue_unknown p k v _ s htag)]
      have hts := writeTag_tags_self (p.registerTag k { defaultValue := some v }).1
        (p.registerTag k { defaultValue := some v }).2 v { quality := q, force := true } s
      rw [registerTag_ret_name] at hts
      exact ⟨_, hts, by simp [writeTag_ret, registerTag_ret_name]⟩
    | scalar v =>
      rw [importOne_scalar_eq (setValue_unknown p k v _ s htag)]
      have hts := writeTag_tags_self (p.registerTag k { defaultValue := some v }).1
        (p.registerTag k { defaultValue := some v }).2 v { force := true } s
      rw [registerTag_ret_name] at hts
      exact ⟨_, hts, by simp [writeTag_ret, registerTag_ret_name]⟩
  · have hname := hwfk tag htag
    cases d with
    | obj v q =>
      rw [importOne_obj_eq (setValue_known p k tag v _ s htag (by simp))]
      have hts := writeTag_tags_self p tag v { quality := q, force := true } s
      rw [hname] at hts
      exact ⟨_, hts, by simp [writeTag_ret, hname]⟩
    | scalar v =>
      rw [importOne_scalar_eq (setValue_known p k tag v _ s htag (by simp))]
      have hts := writeTag_tags_self p tag v { force := true } s
      rw [hname] at hts
      exact ⟨_, hts, by simp [writeTag_ret, hname]⟩

theorem importOne_wf (p : TagProvider σ) (s : σ) (k : String) (d : ImportDatum)
    (hwf : ∀ k2 t, mget p.tags k2 = some t → t.name = k2) :
    ∀ k2 t, mget (TagProvider.importOne p s k d).1.tags k2 = some t → t.name = k2 := by
  intro k2 t h
  by_cases hk : k2 = k
  · subst hk
    obtain ⟨t2, h1, h2⟩ := importOne_tags_self p s k2 d (hwf k2)
    rw [h1] at h
    rw [← Option.some.inj h]
    exact h2
  · rw [importOne_tags_ne p s k d k2 (hwf k) hk] at h
    exact hwf k2 t h

theorem importValues_cons (p : TagProvider σ) (k : String) (d : ImportDatum)
    (rest : List (String × ImportDatum)) (s : σ) :
    p.importValues ((k, d) :: rest) s =
      (TagProvider.importOne p s k d).1.importValues rest
        (TagProvider.importOne p s k d).2 := rfl

theorem importValues_frame (data : List (String × ImportDatum)) :
    ∀ (p : TagProvider σ) (s : σ) (n : String),
      (∀ k t, mget p.tags k = some t → t.name = k) →
      n ∉ data.map Prod.fst →
      mget (p.importValues data s).1.tags n = mget p.tags n := by
  induction data with
  | nil =>
    intro p s n _ _
    rfl
  | cons e rest ih =>
    intro p s n hwf hn
    obtain ⟨k, d⟩ := e
    simp only [List.map_cons, List.mem_cons, not_or] at hn
    rw [importValues_cons]
    rw [ih _ _ n (importOne_wf p s k d hwf) hn.2]
    exact importOne_tags_ne p s k d n (hwf k) hn.1

theorem importOne_obj_self (p : TagProvider σ) (s : σ) (k : String) (v : JSVal) (q : String)
    (tag : Tag) (htag : mget p.tags k = some tag) (hname : tag.name = k) :
    ∃ t2, mget (TagProvider.importOne p s k (ImportDatum.obj v (some q))).1.tags k =
        some t2 ∧
      t2.value = clampOf tag.min tag.max v ∧ t2.quality = q ∧ t2.name = k := by
  rw [importOne_obj_eq (setValue_known p k tag v _ s htag (by simp))]
  have hts := writeTag_tags_self p tag v { quality := some q, force := true } s
  rw [hname] at hts
  exact ⟨_, hts, by simp [writeTag_ret], by simp [writeTag_ret], by simp [writeTag_ret, hname]⟩

theorem importValues_hit (data : List (String × ImportDatum)) :
    ∀ (p : TagProvider σ) (s : σ) (n : String) (v : JSVal) (q : String) (tag : Tag),
      (data.map Prod.fst).Nodup →
      (∀ k t, mget p.tags k = some t → t.name = k) →
      (n, ImportDatum.obj v (some q)) ∈ data →
      mget p.tags n = some tag →
      ∃ t2, mget (p.importValues data s).1.tags n = some t2 ∧
        t2.value = clampOf tag.min tag.max v ∧ t2.quality = q := by
  induction data with
  | nil =>
    intro p s n v q tag _ _ hmem _
    simp at hmem
  | cons e rest ih =>
    intro p s n v q tag hnd hwf hmem htag
    obtain ⟨k, d⟩ := e
    simp only [List.map_cons, List.nodup_cons] at hnd
    rw [importValues_cons]
    rcases List.mem_cons.1 hmem with he | he
    · obtain ⟨hk, hd⟩ := Prod.mk.inj he
      subst hk
      subst hd
      obtain ⟨t2, h1, h2, h3, _⟩ := importOne_obj_self p s n v q tag htag (hwf n tag htag)
      rw [importValues_frame rest _ _ n (importOne_wf p s n _ hwf) hnd.1, h1]
      exact ⟨t2, rfl, h2, h3⟩
    · have hne : n ≠ k := fun hh => hnd.1 (hh ▸ (List.mem_map.2 ⟨_, he, rfl⟩))
      exact ih (TagProvider.importOne p s k d).1 (TagProvider.importOne p s k d).2 n v q
        tag hnd.2 (importOne_wf p s k d hwf) he
        (by rw [importOne_tags_ne p s k d n (hwf k) hne]; exact htag)

theorem filterMap_eq_map_of_forall {α β : Type} (l : List α) (f : α → Option β)
    (g : α → β) (h : ∀ x ∈ l, f x = some (g x)) : l.filterMap f = l.map g := by
  induction l with
  | nil => rfl
  | cons x xs ih =>
    rw [List.filterMap_cons, h x (List.mem_cons_self x xs), List.map_cons,
      ih (fun y hy => h y (List.mem_cons_of_mem x hy))]

theorem exportValues_all (p : TagProvider σ) (hnd : (p.tags.map Prod.fst).Nodup) :
    p.exportValues none = p.tags.map (fun e =>
      (e.1, { value := e.2.value, quality := e.2.quality,
              timestamp := e.2.timestamp })) := by
  unfold TagProvider.exportValues
  simp only [Option.getD_none]
  rw [List.filterMap_map]
  apply filterMap_eq_map_of_forall
  intro e he
  simp only [Function.comp_apply]
  rw [mget_eq_some_of_mem_nodup hnd (show (e.1, e.2) ∈ p.tags from he)]
  rfl

theorem exportForImport_eq (p : TagProvider σ) (hnd : (p.tags.map Prod.fst).Nodup) :
    p.exportForImport = p.tags.map (fun e =>
      (e.1, ImportDatum.obj e.2.value (some e.2.quality))) := by
  unfold TagProvider.exportForImport
  rw [exportValues_all p hnd, List.map_map]
  rfl

def c9p : TagProvider Unit :=
  (TagProvider.registerTag emptyProvider "x"
    { defaultValue := some (JSVal.num 1), min := some 5 }).1

/-- Counterexample to C9 as stated: `registerTag` stores an out-of-range
default without clamping, but the import half of the round trip re-enters
`setValue`, which clamps — so for a tag registered with `defaultValue: 1,
min: 5` and never written, `importValues(exportValues())` changes the value
from `1` to `5` (and emits a LOW alarm): the round trip is not idempotent. -/
theorem roundTrip_not_idempotent_cex :
    c9p.getValue "x" = some (JSVal.num 1) ∧
    (c9p.roundTrip ()).1.getValue "x" = some (JSVal.num 5) := by decide

/-- C9 amended: the export/import round trip preserves every tag's value and
quality provided each registered tag's current value is a fixpoint of its
own clamp (equivalently, within its bounds) — which holds after any accepted
write but can fail for a never-written tag whose registration default lies
outside its bounds, where the round trip instead stores the clamped value
(see the counterexample); timestamps only advance. -/
theorem roundTrip_preserves (p : TagProvider σ) (s : σ)
    (hnd : (p.tags.map Prod.fst).Nodup)
    (hwf : ∀ e ∈ p.tags, Tag.name e.2 = e.1)
    (hfix : ∀ e ∈ p.tags, clampOf (Tag.min e.2) (Tag.max e.2) (Tag.value e.2) =
      Tag.value e.2) :
    ∀ n tag, mget p.tags n = some tag →
      ∃ t2, mget (p.roundTrip s).1.tags n = some t2 ∧
        t2.value = tag.value ∧ t2.quality = tag.quality := by
  intro n tag htag
  unfold TagProvider.roundTrip
  rw [exportForImport_eq p hnd]
  have hmem := mem_of_mget_eq_some htag
  have hdentry : (n, ImportDatum.obj tag.value (some tag.quality)) ∈
      p.tags.map (fun e => (e.1, ImportDatum.obj e.2.value (some e.2.quality))) :=
    List.mem_map.2 ⟨(n, tag), hmem, rfl⟩
  have hnd2 : ((p.tags.map
      (fun e => (e.1, ImportDatum.obj e.2.value (some e.2.quality)))).map
        Prod.fst).Nodup := by
    rw [List.map_map]
    exact hnd
  have hwf2 : ∀ k t, mget p.tags k = some t → t.name = k :=
    fun k t h => hwf (k, t) (mem_of_mget_eq_some h)
  obtain ⟨t2, h1, h2, h3⟩ := importValues_hit _ p s n tag.value tag.quality tag hnd2
    hwf2 hdentry htag
  refine ⟨t2, h1, ?_, h3⟩
  rw [h2]
  exact hfix (n, tag) hmem

def c9q : TagProvider Unit :=
  (TagProvider.registerTag emptyProvider "ok"
    { defaultValue := some (JSVal.num 20), min := some 10, max := some 60 }).1

/-- Witness for the amended C9: a registry whose only tag holds an in-range
value round-trips to the same value and quality. -/
theorem roundTrip_preserves_witness :
    ∃ t2, mget (c9q.roundTrip ()).1.tags "ok" = some t2 ∧
      t2.value = JSVal.num 20 ∧ t2.quality = "GOOD" := by
  have h := roundTrip_preserves c9q () (by decide) (by decide) (by decide) "ok"
    (TagProvider.registerTag (emptyProvider (σ := Unit)) "ok"
      { defaultValue := some (JSVal.num 20), min := some 10, max := some 60 }).2
    (by decide)
  obtain ⟨t2, h1, h2, h3⟩ := h
  exact ⟨t2, h1, h2.trans (by decide), h3.trans (by decide)⟩
